import Mathlib

/-!
Shallow embedding of the chess-evaluation serverless worker
(`evaluate.py`, `api_server.py`, `handler.py`) and proofs of the
specification claims about it.

Strings manipulated character-by-character by the source (FEN piece
placement) are embedded as `List Char`; Python floats (wall-clock
timings, accuracies) are embedded as `Rat`; Python dicts used as
records become structures, and the dict-of-dicts job registry is
embedded with an explicit heap so that the copy-vs-reference
distinction of `dict.copy()` is expressible.
-/

namespace ChessEval

/-! ### Metric engine (`evaluate.py` lines 14-87) -/

/-- Model of Python `str.split(sep)` for a one-character separator:
splits at every occurrence, keeping empty pieces (`''.split('/') == ['']`). -/
def splitOnSep (sep : Char) : List Char → List (List Char)
  | [] => [[]]
  | c :: rest =>
    match splitOnSep sep rest with
    | [] => [[]]
    | r :: rs => if c = sep then [] :: r :: rs else (c :: r) :: rs

/-- Model of Python `sep.join(pieces)` for a one-character separator. -/
def joinSep (sep : Char) : List (List Char) → List Char
  | [] => []
  | [r] => r
  | r :: r2 :: rs => r ++ sep :: joinSep sep (r2 :: rs)

/-- Inner loop of `fen_to_board` (`evaluate.py` lines 80-85): a digit
character extends the board with that many empty squares `'.'`, any other
character is appended as one occupied square. -/
def rankToSquares : List Char → List Char
  | [] => []
  | c :: rest =>
    (if c.isDigit then List.replicate (c.toNat - 48) '.' else [c]) ++ rankToSquares rest

/-- Outer loop of `fen_to_board`: expand each rank in order. -/
def expandRanks : List (List Char) → List Char
  | [] => []
  | r :: rs => rankToSquares r ++ expandRanks rs

/-- Function `fen_to_board` (`evaluate.py` lines 67-87): split the piece-placement
string on `'/'` and expand every rank. -/
def fen_to_board (fen_pos : List Char) : List Char :=
  expandRanks (splitOnSep '/' fen_pos)

/-- Number of squares one character of a rank contributes in `fen_to_board`. -/
def charWeight (c : Char) : Nat :=
  if c.isDigit then c.toNat - 48 else 1

/-- Squares contributed by a whole rank. -/
def rankWeight (r : List Char) : Nat :=
  (r.map charWeight).sum

/-- Well-formed piece-placement string: eight `'/'`-separated ranks whose
digit runs and occupied squares sum to 8 per rank, over ASCII characters
(on ASCII input Python `str.isdigit`/`int` agree with the embedding). -/
def wellFormedFen (fen : List Char) : Prop :=
  (splitOnSep '/' fen).length = 8 ∧
  (∀ r ∈ splitOnSep '/' fen, rankWeight r = 8) ∧
  (∀ c ∈ fen, c.toNat < 128)

instance : DecidablePred wellFormedFen := fun fen => by
  unfold wellFormedFen; infer_instance

/-- Admissible symbol of a 64-square board: the empty-square marker `'.'`
or an ASCII occupied-square character that is neither a digit nor `'/'`. -/
def boardSymbolOK (c : Char) : Prop :=
  c = '.' ∨ (c.toNat < 128 ∧ ¬ c.isDigit ∧ c ≠ '/')

instance : DecidablePred boardSymbolOK := fun c => by
  unfold boardSymbolOK; infer_instance

/-- Modelled from the spec: emitting a pending run of `n` empty squares as
a single digit character (`n = 0` emits nothing); part of "building a
position string from a known 64-symbol board", which has no counterpart
under `src/`. -/
def emitEmpties (n : Nat) : List Char :=
  if n = 0 then [] else [Char.ofNat (48 + n)]

/-- Modelled from the spec: run-length encode one rank of board symbols,
`n` being the count of empty squares pending emission. -/
def encodeRankAux : List Char → Nat → List Char
  | [], n => emitEmpties n
  | c :: rest, n =>
    if c = '.' then encodeRankAux rest (n + 1)
    else emitEmpties n ++ c :: encodeRankAux rest 0

/-- Modelled from the spec: encode one rank of eight board symbols. -/
def encodeRank (r : List Char) : List Char :=
  encodeRankAux r 0

/-- Modelled from the spec: the eight ranks of a 64-symbol board, top rank
first. -/
def board_ranks (b : List Char) : List (List Char) :=
  [b.take 8, (b.drop 8).take 8, (b.drop 16).take 8, (b.drop 24).take 8,
   (b.drop 32).take 8, (b.drop 40).take 8, (b.drop 48).take 8, (b.drop 56).take 8]

/-- Modelled from the spec: build a piece-placement string from a known
64-symbol board (inverse direction of the round-trip property; absent
from `src/`). -/
def board_to_fen (b : List Char) : List Char :=
  joinSep '/' ((board_ranks b).map encodeRank)

/-- Function `extract_piece_positions` (`evaluate.py` lines 14-25): first
whitespace-separated field when the string contains a space, the whole
string otherwise. -/
def extract_piece_positions (fen : String) : String :=
  if fen.contains ' ' then
    (((fen.split (fun c => c.isWhitespace)).filter (fun p => ¬ p.isEmpty)).headD "")
  else fen

/-- Function `compare_positions` (`evaluate.py` lines 28-41). -/
def compare_positions (predicted ground_truth : String) : Bool :=
  extract_piece_positions predicted.trim == extract_piece_positions ground_truth.trim

/-- Function `calculate_piece_accuracy` (`evaluate.py` lines 44-64): fraction of
matching squares over the zipped boards, divided by 64. -/
def calculate_piece_accuracy (predicted ground_truth : String) : Rat :=
  let pred_board := fen_to_board (extract_piece_positions predicted.trim).toList
  let gt_board := fen_to_board (extract_piece_positions ground_truth.trim).toList
  (((pred_board.zip gt_board).countP (fun pg => pg.1 == pg.2) : Nat) : Rat) / 64

/-! ### Evaluation runner (`evaluate.py` lines 90-222) -/

/-- Value returned by one call of the participant's `predict` function:
either a Python `str`, or a value of some other type (carrying its type
name for the diagnostic message). -/
inductive PyVal where
  | str (s : String)
  | nonStr (typeName : String)
deriving DecidableEq

/-- Outcome of invoking `predict_func` on one image: it returns a value
after `elapsed` seconds, or raises an exception. -/
inductive PredOutcome where
  | ok (v : PyVal) (elapsed : Rat)
  | exn (msg : String)
deriving DecidableEq

/-- State of the label file paired with one image: absent, undecodable as
UTF-8, or readable with the given text. -/
inductive LabelFile where
  | missing
  | corrupted
  | ok (text : String)
deriving DecidableEq

/-- One dataset sample: image file name, its label file, and the behaviour
of the predictor on its image path. -/
structure Sample where
  name : String
  label : LabelFile
  pred : PredOutcome
deriving DecidableEq

/-- Validity test of `evaluate.py` line 155, `not predicted or not
isinstance(predicted, str)`: true for every non-string and for the empty
string. -/
def invalidOutput : PyVal → Bool
  | .str s => s.isEmpty
  | .nonStr _ => true

/-- One entry of `results["predictions"]`: the per-sample dict built at
`evaluate.py` lines 157-163, 171-177 or 184-191 (keys absent in a branch
become `none`). -/
structure PredictionRecord where
  image : String
  predicted : Option String
  ground_truth : Option String
  error : Option String
  correct : Bool
  piece_accuracy : Rat
  time_seconds : Rat
deriving DecidableEq

/-- Effect of one loop iteration of `evaluate_submission` (lines 133-193)
on the accumulators: the sample is skipped before the predictor is called
(missing or undecodable label), or the predictor is called once and a
record is appended, together with an optional `timing` entry. -/
inductive StepResult where
  | skipped
  | recorded (r : PredictionRecord) (t : Option Rat)
deriving DecidableEq

/-- Body of the per-image loop (`evaluate.py` lines 133-193) for one
sample. -/
def evalSample (s : Sample) : StepResult :=
  match s.label with
  | .missing => .skipped
  | .corrupted => .skipped
  | .ok text =>
    let ground_truth := text.trim
    match s.pred with
    | .exn msg =>
      .recorded
        { image := s.name, predicted := none, ground_truth := none,
          error := some msg, correct := false, piece_accuracy := 0,
          time_seconds := 0 } none
    | .ok v elapsed =>
      if invalidOutput v then
        .recorded
          { image := s.name, predicted := none, ground_truth := none,
            error := some ("Invalid output type: " ++
              (match v with | .str _ => "str" | .nonStr tn => tn)),
            correct := false, piece_accuracy := 0,
            time_seconds := elapsed } (some elapsed)
      else
        match v with
        | .nonStr tn =>
          .recorded
            { image := s.name, predicted := none, ground_truth := none,
              error := some ("Invalid output type: " ++ tn),
              correct := false, piece_accuracy := 0,
              time_seconds := elapsed } (some elapsed)
        | .str p =>
          .recorded
            { image := s.name,
              predicted := some (extract_piece_positions p),
              ground_truth := some (extract_piece_positions ground_truth),
              error := none,
              correct := compare_positions p ground_truth,
              piece_accuracy := calculate_piece_accuracy p ground_truth,
              time_seconds := elapsed } (some elapsed)

/-- Accumulators of the evaluation loop: `results["predictions"]`,
`results["timing"]`, and the number of `predict_func` calls made inside
the loop. -/
structure LoopOut where
  predictions : List PredictionRecord
  timing : List Rat
  calls : Nat
deriving DecidableEq

/-- The per-image loop of `evaluate_submission` over the (truncated) file
list, in dataset order. -/
def evalLoop : List Sample → LoopOut
  | [] => ⟨[], [], 0⟩
  | s :: rest =>
    match evalSample s, evalLoop rest with
    | .skipped, out => out
    | .recorded r none, out => ⟨r :: out.predictions, out.timing, out.calls + 1⟩
    | .recorded r (some t), out => ⟨r :: out.predictions, t :: out.timing, out.calls + 1⟩

/-- Structure of `results["metrics"]` (`evaluate.py` lines 209-220). -/
structure Metrics where
  total_images : Nat
  correct_predictions : Nat
  accuracy : Rat
  avg_inference_time : Rat
  total_time : Rat
  avg_piece_accuracy : Rat
deriving DecidableEq

/-- Final-metric computation (`evaluate.py` lines 209-220), with the
division-by-zero guards of the source. -/
def computeMetrics (preds : List PredictionRecord) (timing : List Rat) : Metrics :=
  { total_images := preds.length
    correct_predictions := preds.countP (fun p => p.correct)
    accuracy :=
      if preds.length > 0 then
        ((preds.countP (fun p => p.correct) : Nat) : Rat) / (preds.length : Rat)
      else 0
    avg_inference_time :=
      if timing.isEmpty then 0 else timing.sum / (timing.length : Rat)
    total_time := timing.sum
    avg_piece_accuracy :=
      if preds.length > 0 then
        (preds.map (fun p => p.piece_accuracy)).sum / (preds.length : Rat)
      else 0 }

/-- Truncation of the sorted image list (`evaluate.py` lines 113-114):
`if max_samples: image_files = image_files[:max_samples]`. Python
truthiness means `0` and `None` leave the list whole, and a negative
bound keeps Python's slice semantics of dropping from the end. -/
def pyTruncate (files : List Sample) (max_samples : Option Int) : List Sample :=
  match max_samples with
  | none => files
  | some n =>
    if n = 0 then files
    else if 0 < n then files.take n.toNat
    else files.take (files.length - n.natAbs)

/-- The `results` dict returned by `evaluate_submission`. -/
structure EvalResults where
  predictions : List PredictionRecord
  timing : List Rat
  metrics : Metrics
deriving DecidableEq

/-- Function `evaluate_submission` (`evaluate.py` lines 90-222) as a function of
the sorted image list (with each image's label-file state and predictor
behaviour) and `max_samples`. -/
def evaluate_submission (files : List Sample) (max_samples : Option Int) : EvalResults :=
  let fs := pyTruncate files max_samples
  let out := evalLoop fs
  ⟨out.predictions, out.timing, computeMetrics out.predictions out.timing⟩

/-- Total number of `predict_func` invocations during one run: the
warm-up test prediction on `image_files[0]` (`evaluate.py` lines
124-131, skipped only when the list is empty, when the indexing raises
and is caught) plus one invocation per loop iteration that reaches line
151. -/
def predictorInvocations (files : List Sample) (max_samples : Option Int) : Nat :=
  let fs := pyTruncate files max_samples
  (if fs.isEmpty then 0 else 1) + (evalLoop fs).calls

/-- A sample whose label file exists and decodes: the loop reaches the
predictor call for it. -/
def labelReadable (s : Sample) : Bool :=
  match s.label with
  | .ok _ => true
  | _ => false

/-- A sample on which the loop's predictor call raises. -/
def predRaises (s : Sample) : Bool :=
  match s.pred with
  | .exn _ => true
  | _ => false

/-- A sample whose predictor call raises or returns an invalid value
(non-string or empty). -/
def sampleFails (s : Sample) : Bool :=
  match s.pred with
  | .exn _ => true
  | .ok v _ => invalidOutput v

/-- A sample whose loop iteration appends to `results["timing"]`: its
label is readable and its predictor call returns a value (valid or not). -/
def returnedValue (s : Sample) : Bool :=
  labelReadable s && !predRaises s

/-- Elapsed seconds of a sample's predictor call (`0` when it raised). -/
def elapsedOf (s : Sample) : Rat :=
  match s.pred with
  | .ok _ e => e
  | .exn _ => 0

/-! ### Job registry (`api_server.py` lines 68-70, 180-368)

The source keeps `jobs: Dict[str, dict]` guarded by one lock; the inner
dicts are mutable objects that several callers may alias. To express the
difference between `jobs[job_id].copy()` (a value snapshot) and
`list(jobs.values())` (the live dict objects), records live on an
explicit heap of addresses, and the registry maps job identifiers to
addresses. -/

/-- Payload stored under `jobs[job_id]['results']` on success
(`api_server.py` lines 267-272). -/
structure ResultsPayload where
  submission_id : Int
  metrics : Metrics
  results_s3_key : String
  eval_time : Rat
deriving DecidableEq

/-- One job dict (`api_server.py` lines 312-322); keys initialised to
`None` become `none`. The `status` field keeps the source's string
values `queued`, `processing`, `completed`, `failed`. -/
structure JobRecord where
  job_id : String
  status : String
  submission_id : Int
  full_name : String
  created_at : String
  started_at : Option String
  completed_at : Option String
  results : Option ResultsPayload
  error : Option String
deriving DecidableEq

/-- The shared job map together with the heap of job dicts: `heap` maps
addresses to record values, `jobs` maps job identifiers to addresses
(insertion order), `nextAddr` is the allocator. -/
structure JobStore where
  heap : List (Nat × JobRecord)
  jobs : List (String × Nat)
  nextAddr : Nat
deriving DecidableEq

/-- Registry with no jobs (`api_server.py` line 69). -/
def emptyStore : JobStore := ⟨[], [], 0⟩

/-- Value currently stored at heap address `a`. -/
def heapGet (h : List (Nat × JobRecord)) (a : Nat) : Option JobRecord :=
  (h.find? (fun p => p.1 == a)).map (fun p => p.2)

/-- In-place mutation of the record at heap address `a`. -/
def heapSet (h : List (Nat × JobRecord)) (a : Nat) (r : JobRecord) :
    List (Nat × JobRecord) :=
  h.map (fun p => if p.1 == a then (a, r) else p)

/-- Address of the dict `jobs[id]`, when the key exists. -/
def lookupAddr (st : JobStore) (id : String) : Option Nat :=
  (st.jobs.find? (fun p => p.1 == id)).map (fun p => p.2)

/-- Job creation in `submit_evaluation` (`api_server.py` lines 300-327):
allocate a fresh dict in `queued` state and insert it under a fresh
identifier. -/
def createJob (st : JobStore) (job_id : String) (submission_id : Int)
    (full_name created_at : String) : JobStore :=
  { heap := st.heap ++ [(st.nextAddr,
      { job_id := job_id, status := "queued", submission_id := submission_id,
        full_name := full_name, created_at := created_at, started_at := none,
        completed_at := none, results := none, error := none })]
    jobs := st.jobs ++ [(job_id, st.nextAddr)]
    nextAddr := st.nextAddr + 1 }

/-- Field update applied by one `jobs[job_id][...] = ...` block; shared by
the three mutation operations below. -/
def updateJob (st : JobStore) (id : String) (f : JobRecord → JobRecord) :
    Option JobStore :=
  match lookupAddr st id with
  | none => none
  | some a =>
    match heapGet st.heap a with
    | none => none
    | some r => some { st with heap := heapSet st.heap a (f r) }

/-- Start-of-processing update (`api_server.py` lines 190-192): sets
`status = 'processing'` and `started_at`; `none` models the `KeyError`
raised when the identifier is absent. -/
def markProcessing (st : JobStore) (id started_at : String) : Option JobStore :=
  updateJob st id (fun r =>
    { r with status := "processing", started_at := some started_at })

/-- Failure update (`api_server.py` lines 238-241 and 283-286): sets
`status = 'failed'`, `error` and `completed_at`, unconditionally; no
other field is touched. -/
def markFailed (st : JobStore) (id err completed_at : String) : Option JobStore :=
  updateJob st id (fun r =>
    { r with status := "failed", error := some err,
             completed_at := some completed_at })

/-- Success update (`api_server.py` lines 265-273): sets
`status = 'completed'`, `results` and `completed_at`, unconditionally; no
other field is touched. -/
def markCompleted (st : JobStore) (id : String) (payload : ResultsPayload)
    (completed_at : String) : Option JobStore :=
  updateJob st id (fun r =>
    { r with status := "completed", results := some payload,
             completed_at := some completed_at })

/-- Endpoint `get_job_status` (`api_server.py` lines 336-345): `jobs[job_id].copy()`
materialises the current dict value, so the caller receives a snapshot,
not an address; `none` models the 404 on an unknown identifier. -/
def get_job_status (st : JobStore) (id : String) : Option JobRecord :=
  (lookupAddr st id).bind (heapGet st.heap)

/-- Endpoint `delete_job` (`api_server.py` lines 348-358). -/
def delete_job (st : JobStore) (id : String) : Option JobStore :=
  match lookupAddr st id with
  | none => none
  | some _ => some { st with jobs := st.jobs.filter (fun p => ¬ p.1 == id) }

/-- Endpoint `list_jobs` (`api_server.py` lines 361-368): `list(jobs.values())`
copies the outer list but returns the live dict objects themselves —
embedded as their heap addresses. -/
def list_jobs (st : JobStore) : Nat × List Nat :=
  (st.jobs.length, st.jobs.map (fun p => p.2))

/-- Observation a holder of references makes later: dereference each
address against the current heap. -/
def derefJobs (st : JobStore) (addrs : List Nat) : List (Option JobRecord) :=
  addrs.map (heapGet st.heap)

/-! ### Subprocess runner (`api_server.py` lines 125-177, `handler.py`
lines 107-167) -/

/-- Outcome of the `subprocess.run` call wrapping `evaluate.py`: it
finishes within the timeout and the results file parses to `results`, it
is killed by the 900-second timeout, or it raises for another reason. -/
inductive SubprocOutcome where
  | finished (results : EvalResults) (elapsed : Rat)
  | timedOut
  | raised (msg : String)
deriving DecidableEq

/-- Timeout passed to `subprocess.run` (`api_server.py` line 151,
`handler.py` line 133), in seconds, covering the entire batch. -/
def subprocessTimeoutSeconds : Nat := 900

/-- Return dict of `run_evaluation` (`api_server.py` lines 160-177). -/
structure RunEvalOutcome where
  status : String
  results : Option EvalResults
  error : Option String
  eval_time : Option Rat
deriving DecidableEq

/-- Function `run_evaluation` (`api_server.py` lines 125-177): on timeout the
partial output of the killed subprocess is discarded — the results file
is never read and the returned dict carries no `results` key. -/
def run_evaluation : SubprocOutcome → RunEvalOutcome
  | .finished res t => ⟨"success", some res, none, some t⟩
  | .timedOut => ⟨"error", none, some "Evaluation timed out after 15 minutes", none⟩
  | .raised msg => ⟨"error", none, some msg, none⟩

/-- Registry effect of `process_evaluation` after `run_evaluation`
returns (`api_server.py` lines 236-273): any non-success outcome marks
the job `failed` with the outcome's error; success stores the results
payload (built from the metrics and the uploaded report's key) and marks
it `completed`. -/
def applyEvalResult (st : JobStore) (id : String) (ev : RunEvalOutcome)
    (payload : ResultsPayload) (now : String) : Option JobStore :=
  if ev.status ≠ "success" then
    markFailed st id (ev.error.getD "Unknown error") now
  else
    markCompleted st id payload now

/-! ### Concrete inputs used to instantiate the theorems -/

/-- Piece placement of the chess starting position. -/
def startFen : List Char := "rnbqkbnr/pppppppp/8/8/8/8/PPPPPPPP/RNBQKBNR".toList

/-- The 64 symbols of the starting position. -/
def startBoard : List Char := fen_to_board startFen

/-- Ground-truth label text shared by the demo samples. -/
def demoLabel : String := "8/8/8/8/8/8/8/8"

/-- Sample whose label reads and whose predictor returns a valid string. -/
def demoSample : Sample :=
  ⟨"img1.png", .ok demoLabel, .ok (.str demoLabel) 1⟩

/-- Sample whose label file is missing. -/
def demoMissingSample : Sample :=
  ⟨"img2.png", .missing, .ok (.str demoLabel) 1⟩

/-- Sample whose label file does not decode as UTF-8. -/
def demoCorruptSample : Sample :=
  ⟨"img3.png", .corrupted, .ok (.str demoLabel) 1⟩

/-- Sample whose predictor call raises. -/
def demoExnSample : Sample :=
  ⟨"img4.png", .ok demoLabel, .exn "boom"⟩

/-- Sample whose predictor returns a non-string value. -/
def demoInvalidSample : Sample :=
  ⟨"img5.png", .ok demoLabel, .ok (.nonStr "NoneType") 2⟩

/-- Results payload used to drive the registry demos. -/
def demoPayload : ResultsPayload :=
  ⟨1, computeMetrics [] [], "results/Alice/1/results.json", 5⟩

/-- Registry holding one freshly created job `job-1`. -/
def demoStore : JobStore := createJob emptyStore "job-1" 1 "Alice" "t0"

/-- Registry after `job-1` started processing. -/
def demoProcessing : JobStore :=
  (markProcessing demoStore "job-1" "t1").getD emptyStore

/-- Registry after `job-1` completed successfully. -/
def demoCompleted : JobStore :=
  (markCompleted demoProcessing "job-1" demoPayload "t2").getD emptyStore

/-- The completed record of `job-1` in `demoCompleted`. -/
def demoCompletedRec : JobRecord :=
  ⟨"job-1", "completed", 1, "Alice", "t0", some "t1", some "t2",
   some demoPayload, none⟩

/-- The in-flight record of `job-1` in `demoProcessing`. -/
def demoProcessingRec : JobRecord :=
  ⟨"job-1", "processing", 1, "Alice", "t0", some "t1", none, none, none⟩

/-- The queued record of `job-1` in `demoStore`. -/
def demoQueuedRec : JobRecord :=
  ⟨"job-1", "queued", 1, "Alice", "t0", none, none, none, none⟩

/-! ## Helper lemmas about the metric engine -/

theorem splitOnSep_ne_nil (sep : Char) (l : List Char) : splitOnSep sep l ≠ [] := by
  cases l with
  | nil => simp [splitOnSep]
  | cons c rest =>
    simp only [splitOnSep]
    cases h : splitOnSep sep rest with
    | nil => simp
    | cons r rs => by_cases hc : c = sep <;> simp [hc]

theorem splitOnSep_of_not_mem {sep : Char} {l : List Char} (h : sep ∉ l) :
    splitOnSep sep l = [l] := by
  induction l with
  | nil => rfl
  | cons c rest ih =>
    have hc : ¬ c = sep := fun e => h (by simp [e])
    have hrest : sep ∉ rest := fun m => h (List.mem_cons_of_mem _ m)
    simp [splitOnSep, ih hrest, hc]

theorem splitOnSep_append_sep {sep : Char} {r t : List Char} (h : sep ∉ r) :
    splitOnSep sep (r ++ sep :: t) = r :: splitOnSep sep t := by
  induction r with
  | nil =>
    simp only [List.nil_append, splitOnSep]
    cases hsp : splitOnSep sep t with
    | nil => exact absurd hsp (splitOnSep_ne_nil sep t)
    | cons a as => simp
  | cons c rest ih =>
    have hc : ¬ c = sep := fun e => h (by simp [e])
    have hrest : sep ∉ rest := fun m => h (List.mem_cons_of_mem _ m)
    simp only [List.cons_append, splitOnSep, List.append_eq, ih hrest, hc, if_false]

theorem splitOnSep_joinSep {sep : Char} :
    ∀ rs : List (List Char), rs ≠ [] → (∀ r ∈ rs, sep ∉ r) →
      splitOnSep sep (joinSep sep rs) = rs
  | [], h, _ => absurd rfl h
  | [r], _, hs => by
    simp [joinSep, splitOnSep_of_not_mem (hs r (by simp))]
  | r :: r2 :: rs, _, hs => by
    have h1 : sep ∉ r := hs r (by simp)
    have hrec := splitOnSep_joinSep (r2 :: rs) (by simp)
      (fun x hx => hs x (List.mem_cons_of_mem _ hx))
    simp only [joinSep, splitOnSep_append_sep h1, hrec]

theorem rankToSquares_append (a b : List Char) :
    rankToSquares (a ++ b) = rankToSquares a ++ rankToSquares b := by
  induction a with
  | nil => rfl
  | cons c rest ih => simp [rankToSquares, ih, List.append_assoc]

theorem length_rankToSquares (r : List Char) :
    (rankToSquares r).length = rankWeight r := by
  induction r with
  | nil => rfl
  | cons c rest ih =>
    simp only [rankToSquares, rankWeight, List.map_cons, List.sum_cons] at ih ⊢
    by_cases hd : c.isDigit
    · simp [hd, charWeight, ih]
      try omega
    · simp [hd, charWeight, ih]
      try omega

theorem length_expandRanks_of_all8 :
    ∀ rs : List (List Char), (∀ r ∈ rs, rankWeight r = 8) →
      (expandRanks rs).length = 8 * rs.length
  | [], _ => rfl
  | r :: rs, h => by
    have hr : rankWeight r = 8 := h r (by simp)
    have hrec := length_expandRanks_of_all8 rs (fun x hx => h x (List.mem_cons_of_mem _ hx))
    simp [expandRanks, length_rankToSquares, hr, hrec, Nat.mul_succ, Nat.mul_add]
    try omega

theorem digitChar_spec {n : Nat} (h1 : 1 ≤ n) (h2 : n ≤ 9) :
    (Char.ofNat (48 + n)).isDigit = true ∧ (Char.ofNat (48 + n)).toNat = 48 + n ∧
      Char.ofNat (48 + n) ≠ '/' ∧ Char.ofNat (48 + n) ≠ '.' := by
  interval_cases n <;> exact ⟨by decide, by decide, by decide, by decide⟩

theorem rankToSquares_emitEmpties {n : Nat} (h : n ≤ 9) :
    rankToSquares (emitEmpties n) = List.replicate n '.' := by
  cases n with
  | zero => rfl
  | succ m =>
    obtain ⟨hd, ht, _, _⟩ := digitChar_spec (Nat.succ_le_succ (Nat.zero_le m)) h
    simp [emitEmpties, rankToSquares, hd, ht]

theorem emitEmpties_no_slash {n : Nat} (h : n ≤ 9) : '/' ∉ emitEmpties n := by
  cases n with
  | zero => simp [emitEmpties]
  | succ m =>
    obtain ⟨_, _, hs, _⟩ := digitChar_spec (Nat.succ_le_succ (Nat.zero_le m)) h
    simp [emitEmpties]
    exact fun e => hs e.symm

theorem encodeRankAux_no_slash :
    ∀ (r : List Char) (n : Nat), n + r.length ≤ 9 →
      (∀ c ∈ r, boardSymbolOK c) → '/' ∉ encodeRankAux r n
  | [], n, hb, _ => by
    simpa [encodeRankAux] using emitEmpties_no_slash (by omega)
  | c :: rest, n, hb, hs => by
    have hrestOK : ∀ x ∈ rest, boardSymbolOK x :=
      fun x hx => hs x (List.mem_cons_of_mem _ hx)
    by_cases hc : c = '.'
    · have := encodeRankAux_no_slash rest (n + 1) (by simp at hb ⊢; omega) hrestOK
      simpa [encodeRankAux, hc] using this
    · have hcOK := hs c (by simp)
      have hcs : c ≠ '/' := by
        rcases hcOK with h1 | ⟨_, _, h3⟩
        · exact absurd h1 hc
        · exact h3
      have hr := encodeRankAux_no_slash rest 0 (by simp at hb ⊢; omega) hrestOK
      have he := emitEmpties_no_slash (n := n) (by simp at hb; omega)
      simp only [encodeRankAux, hc, if_false]
      intro hmem
      rcases List.mem_append.mp hmem with h | h
      · exact he h
      · rcases List.mem_cons.mp h with h | h
        · exact hcs h.symm
        · exact hr h

theorem rankToSquares_encodeRankAux :
    ∀ (r : List Char) (n : Nat), n + r.length ≤ 9 →
      (∀ c ∈ r, boardSymbolOK c) →
      rankToSquares (encodeRankAux r n) = List.replicate n '.' ++ r
  | [], n, hb, _ => by
    simp [encodeRankAux, rankToSquares_emitEmpties (by omega : n ≤ 9)]
  | c :: rest, n, hb, hs => by
    have hrestOK : ∀ x ∈ rest, boardSymbolOK x :=
      fun x hx => hs x (List.mem_cons_of_mem _ hx)
    by_cases hc : c = '.'
    · have ih := rankToSquares_encodeRankAux rest (n + 1) (by simp at hb ⊢; omega) hrestOK
      subst hc
      simp [encodeRankAux, ih, List.replicate_succ' n, List.append_assoc]
    · have hcOK := hs c (by simp)
      have hnd : ¬ c.isDigit := by
        rcases hcOK with h1 | ⟨_, h2, _⟩
        · exact absurd h1 hc
        · exact h2
      have ih := rankToSquares_encodeRankAux rest 0 (by simp at hb ⊢; omega) hrestOK
      simp only [encodeRankAux, hc, if_false, rankToSquares_append]
      rw [rankToSquares_emitEmpties (by simp at hb; omega : n ≤ 9)]
      simp [rankToSquares, hnd, ih]

theorem rankToSquares_encodeRank {r : List Char} (h : r.length ≤ 9)
    (hs : ∀ c ∈ r, boardSymbolOK c) : rankToSquares (encodeRank r) = r := by
  simpa using rankToSquares_encodeRankAux r 0 (by omega) hs

theorem encodeRank_no_slash {r : List Char} (h : r.length ≤ 9)
    (hs : ∀ c ∈ r, boardSymbolOK c) : '/' ∉ encodeRank r :=
  encodeRankAux_no_slash r 0 (by omega) hs

theorem take8_length_le_nine (x : List Char) : (x.take 8).length ≤ 9 := by
  simp [List.length_take]
  try omega

theorem board_ranks_assemble {b : List Char} (h : b.length = 64) :
    b.take 8 ++ ((b.drop 8).take 8 ++ ((b.drop 16).take 8 ++ ((b.drop 24).take 8 ++
      ((b.drop 32).take 8 ++ ((b.drop 40).take 8 ++ ((b.drop 48).take 8 ++
        ((b.drop 56).take 8 ++ []))))))) = b := by
  have e56 : (b.drop 56).take 8 = b.drop 56 :=
    List.take_of_length_le (by simp [h])
  rw [List.append_nil, e56,
    show b.drop 56 = (b.drop 48).drop 8 by rw [List.drop_drop],
    List.take_append_drop,
    show b.drop 48 = (b.drop 40).drop 8 by rw [List.drop_drop],
    List.take_append_drop,
    show b.drop 40 = (b.drop 32).drop 8 by rw [List.drop_drop],
    List.take_append_drop,
    show b.drop 32 = (b.drop 24).drop 8 by rw [List.drop_drop],
    List.take_append_drop,
    show b.drop 24 = (b.drop 16).drop 8 by rw [List.drop_drop],
    List.take_append_drop,
    show b.drop 16 = (b.drop 8).drop 8 by rw [List.drop_drop],
    List.take_append_drop,
    List.take_append_drop]

/-! ## Claim C5 -/

/-- C5: for every well-formed piece-placement string (8 `'/'`-separated
ranks whose digit runs and occupied squares sum to 8 per rank),
`fen_to_board` (the source's `expand_to_squares`) yields exactly 64
symbols; and building a position string from any known 64-symbol board
and re-expanding it yields the same 64 symbols (round-trip). -/
theorem expand_has_64_squares_and_roundtrip :
    (∀ fen : List Char, wellFormedFen fen → (fen_to_board fen).length = 64) ∧
    (∀ b : List Char, b.length = 64 → (∀ c ∈ b, boardSymbolOK c) →
      fen_to_board (board_to_fen b) = b) := by
  constructor
  · intro fen hwf
    obtain ⟨h8, hall, _⟩ := hwf
    rw [fen_to_board, length_expandRanks_of_all8 _ hall, h8]
  · intro b hlen hsym
    have rankOK : ∀ x ∈ board_ranks b, x.length ≤ 9 ∧ ∀ c ∈ x, boardSymbolOK c := by
      intro x hx
      simp only [board_ranks, List.mem_cons, List.not_mem_nil, or_false] at hx
      rcases hx with h | h | h | h | h | h | h | h <;> subst h <;>
        refine ⟨take8_length_le_nine _, fun c hc => hsym c ?_⟩ <;>
        first
          | exact List.take_subset _ _ hc
          | exact List.drop_subset _ _ (List.take_subset _ _ hc)
    have noSlash : ∀ r ∈ (board_ranks b).map encodeRank, '/' ∉ r := by
      intro r hr
      rcases List.mem_map.mp hr with ⟨x, hx, rfl⟩
      exact encodeRank_no_slash (rankOK x hx).1 (rankOK x hx).2
    have hne : (board_ranks b).map encodeRank ≠ [] := by simp [board_ranks]
    rw [board_to_fen, fen_to_board, splitOnSep_joinSep _ hne noSlash]
    have expand : ∀ x ∈ board_ranks b, rankToSquares (encodeRank x) = x :=
      fun x hx => rankToSquares_encodeRank (rankOK x hx).1 (rankOK x hx).2
    simp only [board_ranks, List.map_cons, List.map_nil, expandRanks]
    rw [expand _ (by simp [board_ranks]), expand _ (by simp [board_ranks]),
      expand _ (by simp [board_ranks]), expand _ (by simp [board_ranks]),
      expand _ (by simp [board_ranks]), expand _ (by simp [board_ranks]),
      expand _ (by simp [board_ranks]), expand _ (by simp [board_ranks])]
    exact board_ranks_assemble hlen

/-- Witness for C5: the starting-position placement string is well formed
and expands to 64 squares, and its 64-symbol board survives the
round-trip. -/
theorem expand_has_64_squares_and_roundtrip_witness :
    (fen_to_board startFen).length = 64 ∧
      fen_to_board (board_to_fen startBoard) = startBoard :=
  ⟨expand_has_64_squares_and_roundtrip.1 startFen (by decide),
   expand_has_64_squares_and_roundtrip.2 startBoard (by decide) (by decide)⟩

/-! ## Helper lemmas about the evaluation loop -/

theorem evalLoop_cons_skipped {s : Sample} {rest : List Sample}
    (h : evalSample s = .skipped) : evalLoop (s :: rest) = evalLoop rest := by
  simp [evalLoop, h]

theorem evalLoop_cons_recorded_none {s : Sample} {rest : List Sample}
    {r : PredictionRecord} (h : evalSample s = .recorded r none) :
    evalLoop (s :: rest) =
      ⟨r :: (evalLoop rest).predictions, (evalLoop rest).timing,
       (evalLoop rest).calls + 1⟩ := by
  simp [evalLoop, h]

theorem evalLoop_cons_recorded_some {s : Sample} {rest : List Sample}
    {r : PredictionRecord} {t : Rat} (h : evalSample s = .recorded r (some t)) :
    evalLoop (s :: rest) =
      ⟨r :: (evalLoop rest).predictions, t :: (evalLoop rest).timing,
       (evalLoop rest).calls + 1⟩ := by
  simp [evalLoop, h]

theorem evalLoop_append (xs ys : List Sample) :
    evalLoop (xs ++ ys) =
      ⟨(evalLoop xs).predictions ++ (evalLoop ys).predictions,
       (evalLoop xs).timing ++ (evalLoop ys).timing,
       (evalLoop xs).calls + (evalLoop ys).calls⟩ := by
  induction xs with
  | nil => simp [evalLoop]
  | cons s rest ih =>
    cases h : evalSample s with
    | skipped =>
      rw [List.cons_append, evalLoop_cons_skipped h, evalLoop_cons_skipped h, ih]
    | recorded r t =>
      cases t with
      | none =>
        rw [List.cons_append, evalLoop_cons_recorded_none h,
          evalLoop_cons_recorded_none h, ih]
        simp [Nat.add_right_comm]
      | some tv =>
        rw [List.cons_append, evalLoop_cons_recorded_some h,
          evalLoop_cons_recorded_some h, ih]
        simp [Nat.add_right_comm]

theorem evalSample_skipped_of_unreadable {s : Sample}
    (h : labelReadable s = false) : evalSample s = .skipped := by
  cases hl : s.label with
  | missing => simp [evalSample, hl]
  | corrupted => simp [evalSample, hl]
  | ok text => simp [labelReadable, hl] at h

theorem evalSample_exn {s : Sample} {text msg : String}
    (hl : s.label = .ok text) (hp : s.pred = .exn msg) :
    evalSample s =
      .recorded ⟨s.name, none, none, some msg, false, 0, 0⟩ none := by
  simp [evalSample, hl, hp]

theorem evalSample_returned {s : Sample} {text : String} {v : PyVal} {e : Rat}
    (hl : s.label = .ok text) (hp : s.pred = .ok v e) :
    ∃ r, evalSample s = .recorded r (some e) := by
  cases v with
  | str p =>
    by_cases hi : invalidOutput (.str p) = true
    · refine ⟨⟨s.name, none, none, some "Invalid output type: str", false, 0, e⟩, ?_⟩
      simp [evalSample, hl, hp, hi]
    · refine ⟨⟨s.name, some (extract_piece_positions p),
        some (extract_piece_positions text.trim), none,
        compare_positions p text.trim, calculate_piece_accuracy p text.trim, e⟩, ?_⟩
      simp [evalSample, hl, hp, hi]
  | nonStr tn =>
    refine ⟨⟨s.name, none, none, some ("Invalid output type: " ++ tn), false, 0, e⟩, ?_⟩
    simp [evalSample, hl, hp, invalidOutput]

theorem evalSample_fail {s : Sample} (hl : labelReadable s = true)
    (hf : sampleFails s = true) :
    ∃ r t, evalSample s = .recorded r t ∧ r.error.isSome = true ∧
      r.correct = false ∧ r.piece_accuracy = 0 := by
  cases hlab : s.label with
  | missing => simp [labelReadable, hlab] at hl
  | corrupted => simp [labelReadable, hlab] at hl
  | ok text =>
    cases hp : s.pred with
    | exn msg =>
      exact ⟨⟨s.name, none, none, some msg, false, 0, 0⟩, none,
        evalSample_exn hlab hp, rfl, rfl, rfl⟩
    | ok v e =>
      have hv : invalidOutput v = true := by simpa [sampleFails, hp] using hf
      cases v with
      | str p =>
        refine ⟨⟨s.name, none, none, some "Invalid output type: str", false, 0, e⟩,
          some e, ?_, rfl, rfl, rfl⟩
        simp [evalSample, hlab, hp, hv]
      | nonStr tn =>
        refine ⟨⟨s.name, none, none, some ("Invalid output type: " ++ tn), false, 0, e⟩,
          some e, ?_, rfl, rfl, rfl⟩
        simp [evalSample, hlab, hp, hv]

theorem evalLoop_calls_eq_length (xs : List Sample) :
    (evalLoop xs).calls = (evalLoop xs).predictions.length := by
  induction xs with
  | nil => rfl
  | cons s rest ih =>
    cases h : evalSample s with
    | skipped => rw [evalLoop_cons_skipped h]; exact ih
    | recorded r t =>
      cases t with
      | none => rw [evalLoop_cons_recorded_none h]; simp [ih]
      | some tv => rw [evalLoop_cons_recorded_some h]; simp [ih]

theorem evalLoop_timing_nil_of_predictions_nil :
    ∀ xs : List Sample, (evalLoop xs).predictions = [] → (evalLoop xs).timing = []
  | [], _ => rfl
  | s :: rest, h => by
    cases hs : evalSample s with
    | skipped =>
      rw [evalLoop_cons_skipped hs] at h ⊢
      exact evalLoop_timing_nil_of_predictions_nil rest h
    | recorded r t =>
      cases t with
      | none => rw [evalLoop_cons_recorded_none hs] at h; simp at h
      | some tv => rw [evalLoop_cons_recorded_some hs] at h; simp at h

theorem evalLoop_timing_eq (xs : List Sample) :
    (evalLoop xs).timing = (xs.filter returnedValue).map elapsedOf := by
  induction xs with
  | nil => rfl
  | cons s rest ih =>
    cases hl : s.label with
    | missing =>
      have hs : evalSample s = .skipped := by simp [evalSample, hl]
      have hr : returnedValue s = false := by simp [returnedValue, labelReadable, hl]
      rw [evalLoop_cons_skipped hs]
      simp [List.filter, hr, ih]
    | corrupted =>
      have hs : evalSample s = .skipped := by simp [evalSample, hl]
      have hr : returnedValue s = false := by simp [returnedValue, labelReadable, hl]
      rw [evalLoop_cons_skipped hs]
      simp [List.filter, hr, ih]
    | ok text =>
      cases hp : s.pred with
      | exn msg =>
        have hr : returnedValue s = false := by
          simp [returnedValue, predRaises, hp]
        rw [evalLoop_cons_recorded_none (evalSample_exn hl hp)]
        simp [List.filter, hr, ih]
      | ok v e =>
        have hr : returnedValue s = true := by
          simp [returnedValue, predRaises, hp, labelReadable, hl]
        obtain ⟨r, hs⟩ := evalSample_returned hl hp
        rw [evalLoop_cons_recorded_some hs]
        simp [List.filter, hr, ih, elapsedOf, hp]

/-! ## Claim C2 -/

/-- C2: for every dataset and any sample whose predictor invocation raises
or returns an invalid value (non-string or empty), the run records for
that sample a result with a failure reason set, `correct = false` and
square accuracy `0`, continues with the remaining samples, and counts the
sample in `total_images`; the failure never aborts the batch. -/
theorem per_sample_failures_recovered (pre post : List Sample) (s : Sample)
    (hl : labelReadable s = true) (hf : sampleFails s = true) :
    ∃ r t, evalSample s = .recorded r t ∧ r.error.isSome = true ∧
      r.correct = false ∧ r.piece_accuracy = 0 ∧
      (evalLoop (pre ++ s :: post)).predictions =
        (evalLoop pre).predictions ++ r :: (evalLoop post).predictions ∧
      (computeMetrics (evalLoop (pre ++ s :: post)).predictions
          (evalLoop (pre ++ s :: post)).timing).total_images =
        (evalLoop pre).predictions.length + 1 + (evalLoop post).predictions.length := by
  obtain ⟨r, t, he, h1, h2, h3⟩ := evalSample_fail hl hf
  have hdec : (evalLoop (pre ++ s :: post)).predictions =
      (evalLoop pre).predictions ++ r :: (evalLoop post).predictions := by
    rw [evalLoop_append]
    cases t with
    | none => rw [evalLoop_cons_recorded_none he]
    | some tv => rw [evalLoop_cons_recorded_some he]
  refine ⟨r, t, he, h1, h2, h3, hdec, ?_⟩
  simp [computeMetrics, hdec]
  omega

/-- Witness for C2 at a concrete three-sample dataset whose middle sample
raises. -/
theorem per_sample_failures_recovered_witness :
    ∃ r t, evalSample demoExnSample = .recorded r t ∧ r.error.isSome = true ∧
      r.correct = false ∧ r.piece_accuracy = 0 ∧
      (evalLoop ([demoSample] ++ demoExnSample :: [demoInvalidSample])).predictions =
        (evalLoop [demoSample]).predictions ++
          r :: (evalLoop [demoInvalidSample]).predictions ∧
      (computeMetrics
          (evalLoop ([demoSample] ++ demoExnSample :: [demoInvalidSample])).predictions
          (evalLoop ([demoSample] ++ demoExnSample :: [demoInvalidSample])).timing).total_images =
        (evalLoop [demoSample]).predictions.length + 1 +
          (evalLoop [demoInvalidSample]).predictions.length :=
  per_sample_failures_recovered [demoSample] [demoInvalidSample] demoExnSample
    (by decide) (by decide)

/-! ## Claim C3 -/

/-- Counterexample for C3: on a one-sample dataset that is fully
evaluated, the predictor entry point is invoked twice (warm-up test
prediction on the first image plus the loop invocation), not once per
evaluated sample. -/
theorem one_invocation_per_sample_counterexample :
    predictorInvocations [demoSample] none ≠
      (evaluate_submission [demoSample] none).predictions.length := by
  decide

/-- C3 (amended): during one run over a dataset whose truncated image
list is nonempty, the predictor entry point is invoked once per evaluated
sample inside the loop plus one warm-up test invocation on the first
image — `N + 1` invocations for `N` evaluated samples. -/
theorem one_invocation_per_sample_plus_warmup (samples : List Sample)
    (maxs : Option Int) (h : pyTruncate samples maxs ≠ []) :
    predictorInvocations samples maxs =
      (evaluate_submission samples maxs).predictions.length + 1 := by
  have hne : (pyTruncate samples maxs).isEmpty = false :=
    List.isEmpty_eq_false.mpr h
  simp [predictorInvocations, evaluate_submission, hne,
    evalLoop_calls_eq_length, Nat.add_comm]

/-- Witness for C3 (amended): a singleton dataset gives two invocations. -/
theorem one_invocation_per_sample_plus_warmup_witness :
    predictorInvocations [demoSample] none =
      (evaluate_submission [demoSample] none).predictions.length + 1 :=
  one_invocation_per_sample_plus_warmup [demoSample] none (by decide)

/-! ## Claim C4 -/

/-- Counterexample for C4: with `max_samples = 0` the source's Python
truthiness test skips the truncation, so all samples are processed
instead of the first `min(0, size) = 0`. -/
theorem truncation_min_counterexample :
    pyTruncate [demoSample] (some 0) ≠ [demoSample].take 0 ∧
    (evaluate_submission [demoSample] (some 0)).predictions.length = 1 := by
  constructor
  · decide
  · decide

/-- C4 (amended): for every provided positive `max_samples` value `N`,
`evaluate_submission` processes exactly the first `min(N, size)` samples
in dataset order and no others, while `max_samples = 0` (like an omitted
`max_samples`) leaves the dataset untruncated. -/
theorem truncation_takes_first_min (files : List Sample) (n : Int) (h : 0 < n) :
    pyTruncate files (some n) = files.take n.toNat ∧
    (pyTruncate files (some n)).length = min n.toNat files.length ∧
    evaluate_submission files (some n) =
      evaluate_submission (files.take n.toNat) none ∧
    pyTruncate files none = files ∧
    pyTruncate files (some 0) = files := by
  have hne : ¬ n = 0 := by omega
  refine ⟨by simp [pyTruncate, hne, h], ?_, ?_, rfl, by simp [pyTruncate]⟩
  · simp [pyTruncate, hne, h, List.length_take]
  · simp [evaluate_submission, pyTruncate, hne, h]

/-- Witness for C4 (amended) at a two-sample dataset with `N = 1`. -/
theorem truncation_takes_first_min_witness :
    pyTruncate [demoSample, demoExnSample] (some 1) =
      [demoSample, demoExnSample].take (Int.toNat 1) ∧
    (pyTruncate [demoSample, demoExnSample] (some 1)).length =
      min (Int.toNat 1) [demoSample, demoExnSample].length ∧
    evaluate_submission [demoSample, demoExnSample] (some 1) =
      evaluate_submission ([demoSample, demoExnSample].take (Int.toNat 1)) none ∧
    pyTruncate [demoSample, demoExnSample] none = [demoSample, demoExnSample] ∧
    pyTruncate [demoSample, demoExnSample] (some 0) =
      [demoSample, demoExnSample] :=
  truncation_takes_first_min [demoSample, demoExnSample] 1 (by decide)

/-! ## Claim C7 -/

/-- C7: aggregation over an empty sequence of sample results
(`total_images = 0`) yields all-zero metrics — accuracy, average square
accuracy, average inference seconds and total inference seconds — with
the division-by-zero guards of the source, rather than failing. -/
theorem aggregate_empty_all_zero (samples : List Sample) (maxs : Option Int)
    (h : (evaluate_submission samples maxs).predictions = []) :
    (evaluate_submission samples maxs).metrics = ⟨0, 0, 0, 0, 0, 0⟩ := by
  have hp : (evalLoop (pyTruncate samples maxs)).predictions = [] := by
    simpa [evaluate_submission] using h
  have ht := evalLoop_timing_nil_of_predictions_nil _ hp
  simp [evaluate_submission, computeMetrics, hp, ht]

/-- Witness for C7: a dataset whose single label file is missing produces
zero sample results and all-zero metrics. -/
theorem aggregate_empty_all_zero_witness :
    (evaluate_submission [demoMissingSample] none).metrics = ⟨0, 0, 0, 0, 0, 0⟩ :=
  aggregate_empty_all_zero [demoMissingSample] none (by decide)

/-! ## Claim C9 -/

/-- C9: a sample whose label file is missing or does not decode as UTF-8
yields no sample result at all — the whole run (records, timing,
invocation count, metrics) equals the run over the dataset without that
sample, and the run still completes. -/
theorem unreadable_label_sample_excluded (pre post : List Sample) (s : Sample)
    (h : labelReadable s = false) :
    evalLoop (pre ++ s :: post) = evalLoop (pre ++ post) ∧
    evaluate_submission (pre ++ s :: post) none =
      evaluate_submission (pre ++ post) none := by
  have hs := evalSample_skipped_of_unreadable h
  have h1 : evalLoop (pre ++ s :: post) = evalLoop (pre ++ post) := by
    rw [evalLoop_append, evalLoop_append, evalLoop_cons_skipped hs]
  exact ⟨h1, by simp [evaluate_submission, pyTruncate, h1]⟩

/-- Witness for C9: dropping a missing-label sample from a two-sample
dataset leaves the run unchanged. -/
theorem unreadable_label_sample_excluded_witness :
    evalLoop ([demoSample] ++ demoMissingSample :: [demoExnSample]) =
      evalLoop ([demoSample] ++ [demoExnSample]) ∧
    evaluate_submission ([demoSample] ++ demoMissingSample :: [demoExnSample]) none =
      evaluate_submission ([demoSample] ++ [demoExnSample]) none :=
  unreadable_label_sample_excluded [demoSample] [demoExnSample] demoMissingSample
    (by decide)

/-! ## Claim C10 -/

/-- C10: when the predictor raises on a sample, that sample's record has
`time_seconds = 0` and the sample is excluded from the timing list, so
`avg_inference_time` is the mean over only the samples whose prediction
call returned a value (dividing by their count, not by `total_images`),
and `total_time` sums exactly those samples' elapsed times. -/
theorem exception_sample_excluded_from_timing (pre post : List Sample)
    (s : Sample) (hl : labelReadable s = true) (hx : predRaises s = true) :
    ∃ r, evalSample s = .recorded r none ∧ r.time_seconds = 0 ∧
      (evalLoop (pre ++ s :: post)).timing =
        (evalLoop pre).timing ++ (evalLoop post).timing ∧
      (evalLoop (pre ++ s :: post)).timing =
        ((pre ++ s :: post).filter returnedValue).map elapsedOf ∧
      (evalLoop (pre ++ s :: post)).timing.length =
        (pre ++ s :: post).countP returnedValue ∧
      (computeMetrics (evalLoop (pre ++ s :: post)).predictions
          (evalLoop (pre ++ s :: post)).timing).avg_inference_time =
        (if (evalLoop (pre ++ s :: post)).timing.isEmpty then 0
         else (evalLoop (pre ++ s :: post)).timing.sum /
           ((evalLoop (pre ++ s :: post)).timing.length : Rat)) ∧
      (computeMetrics (evalLoop (pre ++ s :: post)).predictions
          (evalLoop (pre ++ s :: post)).timing).total_time =
        (((pre ++ s :: post).filter returnedValue).map elapsedOf).sum := by
  cases hlab : s.label with
  | missing => simp [labelReadable, hlab] at hl
  | corrupted => simp [labelReadable, hlab] at hl
  | ok text =>
    cases hp : s.pred with
    | ok v e => simp [predRaises, hp] at hx
    | exn msg =>
      have he := evalSample_exn hlab hp
      have htime : (evalLoop (pre ++ s :: post)).timing =
          (evalLoop pre).timing ++ (evalLoop post).timing := by
        rw [evalLoop_append, evalLoop_cons_recorded_none he]
      have hfe := evalLoop_timing_eq (pre ++ s :: post)
      refine ⟨⟨s.name, none, none, some msg, false, 0, 0⟩, he, rfl, htime, hfe, ?_, ?_, ?_⟩
      · rw [hfe]
        simp [List.countP_eq_length_filter]
      · rfl
      · rw [← hfe]
        rfl

/-- Witness for C10 at a three-sample dataset whose middle sample
raises. -/
theorem exception_sample_excluded_from_timing_witness :
    ∃ r, evalSample demoExnSample = .recorded r none ∧ r.time_seconds = 0 ∧
      (evalLoop ([demoSample] ++ demoExnSample :: [demoInvalidSample])).timing =
        (evalLoop [demoSample]).timing ++ (evalLoop [demoInvalidSample]).timing ∧
      (evalLoop ([demoSample] ++ demoExnSample :: [demoInvalidSample])).timing =
        (([demoSample] ++ demoExnSample :: [demoInvalidSample]).filter
          returnedValue).map elapsedOf ∧
      (evalLoop ([demoSample] ++ demoExnSample :: [demoInvalidSample])).timing.length =
        ([demoSample] ++ demoExnSample :: [demoInvalidSample]).countP returnedValue ∧
      (computeMetrics
          (evalLoop ([demoSample] ++ demoExnSample :: [demoInvalidSample])).predictions
          (evalLoop ([demoSample] ++ demoExnSample :: [demoInvalidSample])).timing).avg_inference_time =
        (if (evalLoop ([demoSample] ++ demoExnSample :: [demoInvalidSample])).timing.isEmpty then 0
         else (evalLoop ([demoSample] ++ demoExnSample :: [demoInvalidSample])).timing.sum /
           (((evalLoop ([demoSample] ++ demoExnSample :: [demoInvalidSample])).timing.length : Nat) : Rat)) ∧
      (computeMetrics
          (evalLoop ([demoSample] ++ demoExnSample :: [demoInvalidSample])).predictions
          (evalLoop ([demoSample] ++ demoExnSample :: [demoInvalidSample])).timing).total_time =
        ((([demoSample] ++ demoExnSample :: [demoInvalidSample]).filter
          returnedValue).map elapsedOf).sum :=
  exception_sample_excluded_from_timing [demoSample] [demoInvalidSample]
    demoExnSample (by decide) (by decide)

/-! ## Helper lemmas about the job registry -/

theorem heapGet_cons (p : Nat × JobRecord) (rest : List (Nat × JobRecord))
    (a : Nat) :
    heapGet (p :: rest) a = if p.1 = a then some p.2 else heapGet rest a := by
  by_cases hp : p.1 = a <;> simp [heapGet, List.find?_cons, hp]

theorem heapSet_cons (p : Nat × JobRecord) (rest : List (Nat × JobRecord))
    (a : Nat) (r : JobRecord) :
    heapSet (p :: rest) a r =
      (if p.1 = a then (a, r) else p) :: heapSet rest a r := by
  by_cases hp : p.1 = a <;> simp [heapSet, hp]

theorem heapGet_heapSet {h : List (Nat × JobRecord)} {a : Nat} {r₀ : JobRecord}
    (hh : heapGet h a = some r₀) (r : JobRecord) :
    heapGet (heapSet h a r) a = some r := by
  induction h with
  | nil => simp [heapGet] at hh
  | cons p rest ih =>
    by_cases hp : p.1 = a
    · rw [heapSet_cons, if_pos hp, heapGet_cons]
      simp
    · rw [heapGet_cons, if_neg hp] at hh
      rw [heapSet_cons, if_neg hp, heapGet_cons, if_neg hp]
      exact ih hh

theorem updateJob_spec {st : JobStore} {id : String} {a : Nat} {r : JobRecord}
    (h1 : lookupAddr st id = some a) (h2 : heapGet st.heap a = some r)
    (f : JobRecord → JobRecord) :
    updateJob st id f = some { st with heap := heapSet st.heap a (f r) } := by
  simp [updateJob, h1, h2]

theorem lookupAddr_mem {st : JobStore} {id : String} {a : Nat}
    (h : lookupAddr st id = some a) : a ∈ (list_jobs st).2 := by
  unfold lookupAddr at h
  cases hfind : st.jobs.find? (fun p => p.1 == id) with
  | none => rw [hfind] at h; simp at h
  | some p =>
    rw [hfind] at h
    simp only [Option.map_some', Option.some.injEq] at h
    subst h
    exact List.mem_map.mpr ⟨p, List.mem_of_find?_eq_some hfind, rfl⟩

/-! ## Claim C1 -/

/-- Counterexample for C1: after `job-1` has been recorded `completed`, a
second completion attempt (`markFailed`, the write block of
`api_server.py` lines 283-286) succeeds — it is not rejected with any
`AlreadyTerminal` signal — and overwrites the record's `status` and
`completed_at`. -/
theorem second_completion_not_rejected_counterexample :
    (markFailed demoCompleted "job-1" "boom" "t3").map
        (fun st => (get_job_status st "job-1").map
          (fun r => (r.status, r.completed_at))) =
      some (some ("failed", some "t3")) ∧
    (get_job_status demoCompleted "job-1").map (fun r => r.status) =
      some "completed" := by
  exact ⟨by decide, by decide⟩

/-- C1 (amended): the registry applies no `AlreadyTerminal` guard — once
a terminal status (`completed` or `failed`) has been recorded, a second
completion attempt (`markFailed` or `markCompleted`) succeeds
unconditionally, overwriting `status` and `completed_at` together with
`error` (for fail) or `results` (for complete) and leaving the remaining
fields as they were. -/
theorem second_completion_overwrites (st : JobStore) (id : String) (a : Nat)
    (r : JobRecord) (payload : ResultsPayload) (e t : String)
    (h1 : lookupAddr st id = some a) (h2 : heapGet st.heap a = some r)
    (_hterm : r.status = "completed" ∨ r.status = "failed") :
    (∃ st', markFailed st id e t = some st' ∧
      heapGet st'.heap a =
        some { r with
                status := "failed", error := some e, completed_at := some t }) ∧
    (∃ st', markCompleted st id payload t = some st' ∧
      heapGet st'.heap a =
        some { r with
                status := "completed", results := some payload,
                completed_at := some t }) := by
  refine ⟨⟨_, updateJob_spec h1 h2 _, ?_⟩, ⟨_, updateJob_spec h1 h2 _, ?_⟩⟩
  · exact heapGet_heapSet h2 _
  · exact heapGet_heapSet h2 _

/-- Witness for C1 (amended) at the concrete completed registry. -/
theorem second_completion_overwrites_witness :
    (∃ st', markFailed demoCompleted "job-1" "boom" "t3" = some st' ∧
      heapGet st'.heap 0 =
        some { demoCompletedRec with
                status := "failed", error := some "boom",
                completed_at := some "t3" }) ∧
    (∃ st', markCompleted demoCompleted "job-1" demoPayload "t3" = some st' ∧
      heapGet st'.heap 0 =
        some { demoCompletedRec with
                status := "completed",
                results := some demoPayload, completed_at := some "t3" }) :=
  second_completion_overwrites demoCompleted "job-1" 0 demoCompletedRec
    demoPayload "boom" "t3" (by decide) (by decide) (Or.inl (by decide))

/-! ## Claim C6 -/

/-- C6: when the batch exceeds the per-run timeout (a constant 900
seconds wrapping the whole `evaluate.py` subprocess, not one sample), the
run returns an error outcome carrying no results object at all — no
per-sample results and no aggregate metrics, the partial work of the
killed subprocess being discarded — and the job is marked `failed` with
its `results` field still unset. -/
theorem batch_timeout_discards_results (st : JobStore) (id : String) (a : Nat)
    (r : JobRecord) (payload : ResultsPayload) (now : String)
    (h1 : lookupAddr st id = some a) (h2 : heapGet st.heap a = some r)
    (hres : r.results = none) :
    run_evaluation .timedOut =
      ⟨"error", none, some "Evaluation timed out after 15 minutes", none⟩ ∧
    subprocessTimeoutSeconds = 900 ∧
    ∃ st', applyEvalResult st id (run_evaluation .timedOut) payload now = some st' ∧
      heapGet st'.heap a =
        some { r with
                status := "failed"
                error := some "Evaluation timed out after 15 minutes"
                completed_at := some now } ∧
      (heapGet st'.heap a).map JobRecord.results = some none := by
  have happ : applyEvalResult st id (run_evaluation .timedOut) payload now =
      markFailed st id "Evaluation timed out after 15 minutes" now := by
    simp [applyEvalResult, run_evaluation]
  refine ⟨rfl, rfl, ?_⟩
  rw [happ]
  refine ⟨_, updateJob_spec h1 h2 _, heapGet_heapSet h2 _, ?_⟩
  rw [heapGet_heapSet h2 _]
  simp [hres]

/-- Witness for C6 at the concrete in-flight registry. -/
theorem batch_timeout_discards_results_witness :
    run_evaluation .timedOut =
      ⟨"error", none, some "Evaluation timed out after 15 minutes", none⟩ ∧
    subprocessTimeoutSeconds = 900 ∧
    ∃ st', applyEvalResult demoProcessing "job-1" (run_evaluation .timedOut)
        demoPayload "t2" = some st' ∧
      heapGet st'.heap 0 =
        some { demoProcessingRec with
                status := "failed"
                error := some "Evaluation timed out after 15 minutes"
                completed_at := some "t2" } ∧
      (heapGet st'.heap 0).map JobRecord.results = some none :=
  batch_timeout_discards_results demoProcessing "job-1" 0 demoProcessingRec
    demoPayload "t2" (by decide) (by decide) (by decide)

/-! ## Claim C8 -/

/-- Counterexample for C8: the records returned by `list_jobs` are live
references, not copies — a registry mutation performed after `list_jobs`
returned changes what the previously returned records show. -/
theorem list_returns_live_references_counterexample :
    (markFailed demoStore "job-1" "boom" "t9").map
        (fun st => derefJobs st (list_jobs demoStore).2) ≠
      some (derefJobs demoStore (list_jobs demoStore).2) := by
  decide

/-- C8 (amended): `get_job_status` returns a copy — the snapshot value of
the record at lookup time, unaffected by later mutation — while
`list_jobs` returns the live record references, through which a mutation
performed after the call is visible. -/
theorem get_copies_but_list_aliases (st : JobStore) (id : String) (a : Nat)
    (r : JobRecord) (e t : String)
    (h1 : lookupAddr st id = some a) (h2 : heapGet st.heap a = some r) :
    get_job_status st id = some r ∧
    a ∈ (list_jobs st).2 ∧
    ∃ st', markFailed st id e t = some st' ∧
      heapGet st'.heap a =
        some { r with
                status := "failed", error := some e,
                completed_at := some t } := by
  refine ⟨?_, lookupAddr_mem h1, _, updateJob_spec h1 h2 _, heapGet_heapSet h2 _⟩
  simp [get_job_status, h1, h2]

/-- Witness for C8 (amended) at the concrete queued registry. -/
theorem get_copies_but_list_aliases_witness :
    get_job_status demoStore "job-1" = some demoQueuedRec ∧
    0 ∈ (list_jobs demoStore).2 ∧
    ∃ st', markFailed demoStore "job-1" "boom" "t9" = some st' ∧
      heapGet st'.heap 0 =
        some { demoQueuedRec with
                status := "failed", error := some "boom",
                completed_at := some "t9" } :=
  get_copies_but_list_aliases demoStore "job-1" 0 demoQueuedRec "boom" "t9"
    (by decide) (by decide)

end ChessEval
